import Mathlib

/-!
Verification development for the local 3D field-interpolation kernel
(`fem/gslib/interpolate_local_3.cpp`): `lagrange_eval`,
`InterpolateLocal3DKernel` and `FindPointsGSLIB::InterpolateLocal3`.

The C code is shallowly embedded over exact rational arithmetic: buffers
(`double *`, `int *`) become total functions `Nat → ℚ` / `Nat → Nat`, the
two `MFEM_VERIFY` aborts become an `Option` result (`none` = fatal abort),
and the data-parallel kernel becomes a pure function from the input buffers
to the new contents of the output buffer.  The on-device shared scratch
array `wtr` starts uninitialized; its unknown initial contents are made
explicit as a parameter `wtr0`, so that theorems can quantify over it.
All writes of the basis phase target pairwise distinct entries of `wtr`
(lane (j,k) writes `wtr[k*D1D+j]` when `k ≤ 2`, and `wtr[2*D1D+j]` when
`D1D = 2 ∧ k = 1`; no two lanes target the same cell), hence the
concurrent writes are embedded as a fold over the lanes in some fixed
enumeration order.
-/

/-- Embedding of `lagrange_eval` (interpolate_local_3.cpp lines 24-35):
`p_i` starts as `1 << (p_Nq - 1)`, the loop multiplies by
`j == i ? 1 : (x - z[j])` for `j = 0 .. p_Nq-1`, and the function stores
`lagrangeCoeff[i] * p_i` (into `p0[i]`; the embedding returns that value). -/
def lagrange_eval (x : ℚ) (i p_Nq : ℕ) (z lagrangeCoeff : ℕ → ℚ) : ℚ :=
  lagrangeCoeff i *
    (List.range p_Nq).foldl (fun p_i j => p_i * (if j = i then 1 else x - z j))
      ((2 : ℚ) ^ (p_Nq - 1))

/-- The lanes of one point: all pairs `(j, k)` with `j, k < D1D`
(the two `MFEM_FOREACH_THREAD` dimensions of the basis phase). -/
def laneWrites (D1D : ℕ) : List (ℕ × ℕ) :=
  (List.range (D1D * D1D)).map (fun t => (t % D1D, t / D1D))

/-- The write targets of lane `(j,k)` in the basis phase
(interpolate_local_3.cpp lines 62-75): `wtr[k*D1D+j]` when `k ≤ 2`,
and additionally `wtr[2*D1D+j]` when `D1D = 2 ∧ k = 1`. -/
def writesAt (D1D : ℕ) (j k idx : ℕ) : Prop :=
  (k ≤ 2 ∧ idx = k * D1D + j) ∨ (D1D = 2 ∧ k = 1 ∧ idx = 2 * D1D + j)

instance (D1D j k idx : ℕ) : Decidable (writesAt D1D j k idx) :=
  inferInstanceAs (Decidable (_ ∨ _))

/-- The effect of lane `(j,k)` of the basis phase on the shared array `wtr`:
if `k ≤ 2` it stores the `j`-th basis value at coordinate `r[3*i+k]` into
`wtr[k*D1D + j]`, and if `D1D == 2 && k == 1` it additionally stores the
`j`-th basis value at coordinate `r[3*i+2]` into `wtr[2*D1D + j]`
(interpolate_local_3.cpp lines 62-75).  `rc d` stands for `r[3*i+d]`. -/
def basisStep (D1D : ℕ) (rc z c : ℕ → ℚ) (w : ℕ → ℚ) (j k : ℕ) : ℕ → ℚ :=
  if D1D = 2 ∧ k = 1 then
    Function.update
      (if k ≤ 2 then
        Function.update w (k * D1D + j) (lagrange_eval (rc k) j D1D z c)
      else w)
      (2 * D1D + j) (lagrange_eval (rc 2) j D1D z c)
  else
    (if k ≤ 2 then
      Function.update w (k * D1D + j) (lagrange_eval (rc k) j D1D z c)
    else w)

/-- The whole basis phase for one point: every lane performs its writes on
the shared array `wtr`, whose initial (uninitialized) contents are `w0`.
All writes target pairwise distinct cells, so the enumeration order of the
lanes is irrelevant. -/
def basisPhase (D1D : ℕ) (rc z c w0 : ℕ → ℚ) : ℕ → ℚ :=
  (laneWrites D1D).foldl (fun w jk => basisStep D1D rc z c w jk.1 jk.2) w0

/-- The contraction of lane `(j,k)` for one field component
(interpolate_local_3.cpp lines 88-94): `sums[j+k*D1D]` accumulates
`gf_in[elemOffset + j + k*D1D + l*D1D*D1D] * wtr[2*D1D+l]` over
`l = 0 .. D1D-1`, and is then scaled by `wtr[D1D+k]*wtr[j]`. -/
def innerSum (D1D : ℕ) (gf : ℕ → ℚ) (elemOffset : ℕ) (w : ℕ → ℚ) (j k : ℕ) : ℚ :=
  ((List.range D1D).foldl
      (fun s l => s + gf (elemOffset + j + k * D1D + l * D1D * D1D) * w (2 * D1D + l)) 0) *
    (w (D1D + k) * w j)

/-- The value the kernel stores into `int_out[i + fld*npt]` for one point:
`elemOffset = el[i] * p_Np * Nfields + fld * p_Np` with `p_Np = D1D³` and
`Nfields = ncomp` (line 83), and the designated lane `(0,0)` sums the
`D1D²` entries `sums[jj]` in increasing order of the flat index `jj`
(lines 99-113); `sums[jj]` is the contraction of lane
`(jj % D1D, jj / D1D)`.  `rc d` stands for `r[3*i+d]` and `eli` for `el[i]`. -/
def pointOutput (D1D ncomp : ℕ) (gf : ℕ → ℚ) (eli : ℕ) (rc z c w0 : ℕ → ℚ)
    (fld : ℕ) : ℚ :=
  (List.range (D1D * D1D)).foldl
    (fun s jj =>
      s + innerSum D1D gf (eli * (D1D * D1D * D1D) * ncomp + fld * (D1D * D1D * D1D))
            (basisPhase D1D rc z c w0) (jj % D1D) (jj / D1D)) 0

/-- `MD1 = T_D1D ? T_D1D : 10` (interpolate_local_3.cpp line 51). -/
def effectiveMD1 (T_D1D : ℕ) : ℕ := if T_D1D ≠ 0 then T_D1D else 10

/-- `D1D = T_D1D ? T_D1D : pN` (interpolate_local_3.cpp line 52). -/
def effectiveD1D (T_D1D pN : ℕ) : ℕ := if T_D1D ≠ 0 then T_D1D else pN

/-- The set of output cells the kernel writes: `int_out[i + fld*npt]` for
`i < npt` and `fld < ncomp`, i.e. exactly the `idx` with `idx / npt < ncomp`
(when `npt > 0`; `i = idx % npt`, `fld = idx / npt`). -/
def outWritten (npt ncomp idx : ℕ) : Prop := 0 < npt ∧ idx / npt < ncomp

instance (npt ncomp idx : ℕ) : Decidable (outWritten npt ncomp idx) :=
  inferInstanceAs (Decidable (_ ∧ _))

/-- The new contents of the output buffer `int_out` after the
`mfem::forall_2D` loop body ran for every point `i < npt`: the cell
`i + fld*npt` receives the interpolated value of point `i`, component
`fld`, every other cell keeps its old contents. -/
def kernelWrites (D1D ncomp : ℕ) (gf : ℕ → ℚ) (el : ℕ → ℕ) (r int_out : ℕ → ℚ)
    (npt : ℕ) (z c w0 : ℕ → ℚ) : ℕ → ℚ :=
  fun idx =>
    if outWritten npt ncomp idx then
      pointOutput D1D ncomp gf (el (idx % npt)) (fun d => r (3 * (idx % npt) + d))
        z c w0 (idx / npt)
    else int_out idx

/-- Embedding of `InterpolateLocal3DKernel` (interpolate_local_3.cpp lines
37-117).  The two `MFEM_VERIFY` checks (lines 54-55) abort fatally when
violated, embedded as `none`; otherwise the kernel produces the new
contents of the output buffer `int_out`.  Note that in the source the
first check tests `MD1 <= 10` where `MD1 = T_D1D ? T_D1D : 10`, and that
`nel` and `gf_offset` are never read by the kernel body (the only use of
`gf_offset`, line 81, is commented out). -/
def InterpolateLocal3DKernel (T_D1D : ℕ) (gf_in : ℕ → ℚ) (el : ℕ → ℕ)
    (r int_out : ℕ → ℚ) (npt ncomp nel gf_offset : ℕ) (gll1D lagcoeff : ℕ → ℚ)
    (pN : ℕ) (wtr0 : ℕ → ℚ) : Option (ℕ → ℚ) :=
  if effectiveMD1 T_D1D ≤ 10 then
    if effectiveD1D T_D1D pN ≠ 0 then
      some (kernelWrites (effectiveD1D T_D1D pN) ncomp gf_in el r int_out npt
        gll1D lagcoeff wtr0)
    else none
  else none

/-- The buffers passed to the kernel, for expressing which of them an
invocation can mutate. -/
structure KernelState where
  gf_in : ℕ → ℚ
  el : ℕ → ℕ
  r : ℕ → ℚ
  int_out : ℕ → ℚ
  gll1D : ℕ → ℚ
  lagcoeff : ℕ → ℚ

/-- State-passing form of the kernel: an invocation returns the final
contents of all six buffers.  The only assignments in the kernel body
(interpolate_local_3.cpp lines 56-116) target the shared scratch arrays
`wtr`/`sums` and the output buffer `int_out`, so every buffer other than
`int_out` comes back unchanged. -/
def InterpolateLocal3DKernelFull (T_D1D : ℕ) (s : KernelState)
    (npt ncomp nel gf_offset : ℕ) (pN : ℕ) (wtr0 : ℕ → ℚ) : Option KernelState :=
  (InterpolateLocal3DKernel T_D1D s.gf_in s.el s.r s.int_out npt ncomp nel
      gf_offset s.gll1D s.lagcoeff pN wtr0).map
    (fun out => ⟨s.gf_in, s.el, s.r, out, s.gll1D, s.lagcoeff⟩)

/-- Embedding of `FindPointsGSLIB::InterpolateLocal3` (interpolate_local_3.cpp
lines 119-152): early return (output unchanged) when `npt == 0`, then
`gf_offset = field_in.Size()/ncomp` and dispatch on `dof1Dsol`: the
specialized instantiations `<2>`, `<3>`, `<4>`, `<5>` (with defaulted
`pN = 0`), or the generic instantiation (`T_D1D = 0`) with `pN = dof1Dsol`. -/
def InterpolateLocal3 (field_in_size : ℕ) (field_in : ℕ → ℚ) (gsl_elem : ℕ → ℕ)
    (gsl_ref field_out : ℕ → ℚ) (npt ncomp nel dof1Dsol : ℕ)
    (gll1d_sol lagcoeff_sol : ℕ → ℚ) (wtr0 : ℕ → ℚ) : Option (ℕ → ℚ) :=
  if npt = 0 then some field_out
  else
    if dof1Dsol = 2 then
      InterpolateLocal3DKernel 2 field_in gsl_elem gsl_ref field_out npt ncomp nel
        (field_in_size / ncomp) gll1d_sol lagcoeff_sol 0 wtr0
    else if dof1Dsol = 3 then
      InterpolateLocal3DKernel 3 field_in gsl_elem gsl_ref field_out npt ncomp nel
        (field_in_size / ncomp) gll1d_sol lagcoeff_sol 0 wtr0
    else if dof1Dsol = 4 then
      InterpolateLocal3DKernel 4 field_in gsl_elem gsl_ref field_out npt ncomp nel
        (field_in_size / ncomp) gll1d_sol lagcoeff_sol 0 wtr0
    else if dof1Dsol = 5 then
      InterpolateLocal3DKernel 5 field_in gsl_elem gsl_ref field_out npt ncomp nel
        (field_in_size / ncomp) gll1d_sol lagcoeff_sol 0 wtr0
    else
      InterpolateLocal3DKernel 0 field_in gsl_elem gsl_ref field_out npt ncomp nel
        (field_in_size / ncomp) gll1d_sol lagcoeff_sol dof1Dsol wtr0

/-- Spec-side definition of the 1D basis weight, written from the words of
the specification and of claim C1: `lagrangeCoeff[m] * 2^(D1D-1) *`
product over `q ≠ m` (with `q < D1D`) of `(x - gll1D[q])`. -/
def specWeight (D1D : ℕ) (z c : ℕ → ℚ) (x : ℚ) (m : ℕ) : ℚ :=
  c m * 2 ^ (D1D - 1) * ∏ q ∈ (Finset.range D1D).erase m, (x - z q)

/-- Spec-side definition of the interpolated value of one point and one
component, written from the words of claim C1: the sum over `j,k,l < D1D`
of `gf_in[el[i]*D1D³*ncomp + fld*D1D³ + j + k*D1D + l*D1D²]` times
`w0(j) * w1(k) * w2(l)`, where `wd` is the basis weight at coordinate
`rc d = r[3*i+d]`. -/
def specInterpValue (D1D ncomp : ℕ) (gf : ℕ → ℚ) (eli : ℕ) (rc z c : ℕ → ℚ)
    (fld : ℕ) : ℚ :=
  ∑ j ∈ Finset.range D1D, ∑ k ∈ Finset.range D1D, ∑ l ∈ Finset.range D1D,
    gf (eli * (D1D * D1D * D1D) * ncomp + fld * (D1D * D1D * D1D)
          + j + k * D1D + l * (D1D * D1D)) *
      specWeight D1D z c (rc 0) j * specWeight D1D z c (rc 1) k *
      specWeight D1D z c (rc 2) l

/-- The per-component sub-buffer of an interleaved 3-component field buffer,
written from the words of claim C7: entry `n` of the sub-buffer for
component `comp` is the entry of the full buffer at local tensor index
`n % D1D³` of component `comp` of element `n / D1D³`. -/
def subComponentBuffer (D1D comp : ℕ) (gf : ℕ → ℚ) : ℕ → ℚ :=
  fun n =>
    gf ((n / (D1D * D1D * D1D)) * (3 * (D1D * D1D * D1D)) + comp * (D1D * D1D * D1D)
        + n % (D1D * D1D * D1D))

/-! ## Bridge lemmas: loops to big operators -/

/-- A left fold of additions over `List.range` is the corresponding
`Finset.range` sum. -/
lemma foldl_add_range (g : ℕ → ℚ) : ∀ (n : ℕ) (a : ℚ),
    (List.range n).foldl (fun s j => s + g j) a = a + ∑ j ∈ Finset.range n, g j := by
  intro n
  induction n with
  | zero => intro a; simp
  | succ m ih =>
    intro a
    rw [List.range_succ, List.foldl_append, ih, Finset.sum_range_succ, List.foldl_cons,
      List.foldl_nil, add_assoc]

/-- A left fold of multiplications over `List.range` is the corresponding
`Finset.range` product. -/
lemma foldl_mul_range (g : ℕ → ℚ) : ∀ (n : ℕ) (a : ℚ),
    (List.range n).foldl (fun p j => p * g j) a = a * ∏ j ∈ Finset.range n, g j := by
  intro n
  induction n with
  | zero => intro a; simp
  | succ m ih =>
    intro a
    rw [List.range_succ, List.foldl_append, ih, Finset.prod_range_succ, List.foldl_cons,
      List.foldl_nil, mul_assoc]

/-- Skipping the factor at `j = i` is the product over the range with `i`
erased. -/
lemma prod_ite_erase (n i : ℕ) (x : ℚ) (z : ℕ → ℚ) :
    (∏ j ∈ Finset.range n, if j = i then 1 else x - z j)
      = ∏ j ∈ (Finset.range n).erase i, (x - z j) := by
  by_cases hi : i ∈ Finset.range n
  · rw [← Finset.mul_prod_erase _ _ hi, if_pos rfl, one_mul]
    exact Finset.prod_congr rfl (fun j hj => if_neg (Finset.ne_of_mem_erase hj))
  · rw [Finset.erase_eq_of_not_mem hi]
    exact Finset.prod_congr rfl (fun j hj => if_neg (fun (h : j = i) => hi (h ▸ hj)))

/-- `lagrange_eval` computes exactly the spec-side basis weight. -/
lemma lagrange_eval_eq_weight (x : ℚ) (i p_Nq : ℕ) (z c : ℕ → ℚ) :
    lagrange_eval x i p_Nq z c = specWeight p_Nq z c x i := by
  calc lagrange_eval x i p_Nq z c
      = c i * ((2:ℚ)^(p_Nq-1) * ∏ j ∈ Finset.range p_Nq, (if j = i then 1 else x - z j)) :=
        congrArg (fun t => c i * t) (foldl_mul_range _ _ _)
    _ = c i * ((2:ℚ)^(p_Nq-1) * ∏ j ∈ (Finset.range p_Nq).erase i, (x - z j)) := by
        rw [prod_ite_erase]
    _ = specWeight p_Nq z c x i := by rw [specWeight, mul_assoc]

/-! ## The basis phase writes the three weight vectors -/

/-- Every lane has first coordinate below `D1D`. -/
lemma laneWrites_mem_fst {D1D : ℕ} {p : ℕ × ℕ} (hp : p ∈ laneWrites D1D) :
    p.1 < D1D := by
  rcases List.mem_map.mp hp with ⟨t, ht, rfl⟩
  have htr := List.mem_range.mp ht
  have hD : 0 < D1D := by
    rcases Nat.eq_zero_or_pos D1D with h0 | h0
    · subst h0; simp at htr
    · exact h0
  exact Nat.mod_lt _ hD

/-- Every pair `(j, k)` with `j, k < D1D` is a lane. -/
lemma laneWrites_mem_pair {D1D j k : ℕ} (hj : j < D1D) (hk : k < D1D) :
    (j, k) ∈ laneWrites D1D := by
  have hD : 0 < D1D := lt_of_le_of_lt (Nat.zero_le j) hj
  refine List.mem_map.mpr ⟨j + k * D1D, List.mem_range.mpr ?_, ?_⟩
  · calc j + k * D1D < D1D + k * D1D := by omega
      _ = (k + 1) * D1D := by ring
      _ ≤ D1D * D1D := Nat.mul_le_mul_right _ (by omega)
  · show ((j + k * D1D) % D1D, (j + k * D1D) / D1D) = (j, k)
    rw [Nat.add_mul_mod_self_right, Nat.mod_eq_of_lt hj,
      Nat.add_mul_div_right _ _ hD, Nat.div_eq_of_lt hj, Nat.zero_add]

/-- A lane changes no cell of `wtr` outside its write targets. -/
lemma basisStep_not_written (D1D : ℕ) (rc z c : ℕ → ℚ) (w : ℕ → ℚ) (j k idx : ℕ)
    (h : ¬ writesAt D1D j k idx) :
    basisStep D1D rc z c w j k idx = w idx := by
  unfold basisStep
  by_cases hsp : D1D = 2 ∧ k = 1
  · have hne2 : idx ≠ 2 * D1D + j := fun he => h (Or.inr ⟨hsp.1, hsp.2, he⟩)
    have hk : k ≤ 2 := by obtain ⟨-, h1⟩ := hsp; omega
    have hne1 : idx ≠ k * D1D + j := fun he => h (Or.inl ⟨hk, he⟩)
    rw [if_pos hsp, Function.update_noteq hne2, if_pos hk, Function.update_noteq hne1]
  · rw [if_neg hsp]
    by_cases hk : k ≤ 2
    · have hne1 : idx ≠ k * D1D + j := fun he => h (Or.inl ⟨hk, he⟩)
      rw [if_pos hk, Function.update_noteq hne1]
    · rw [if_neg hk]

/-- On its write targets, a lane stores the basis value for direction
`idx / D1D` and basis index `idx % D1D` (any lane that writes cell `idx`
stores this same value). -/
lemma basisStep_written (D1D : ℕ) (rc z c : ℕ → ℚ) (w : ℕ → ℚ) (j k idx : ℕ)
    (hj : j < D1D) (h : writesAt D1D j k idx) :
    basisStep D1D rc z c w j k idx
      = lagrange_eval (rc (idx / D1D)) (idx % D1D) D1D z c := by
  have hD : 0 < D1D := lt_of_le_of_lt (Nat.zero_le j) hj
  unfold basisStep
  rcases h with ⟨hk, he⟩ | ⟨hD2, hk1, he⟩
  · have hdiv : idx / D1D = k := by
      rw [he, add_comm, Nat.add_mul_div_right _ _ hD, Nat.div_eq_of_lt hj, Nat.zero_add]
    have hmod : idx % D1D = j := by
      rw [he, add_comm, Nat.add_mul_mod_self_right, Nat.mod_eq_of_lt hj]
    rw [hdiv, hmod]
    by_cases hsp : D1D = 2 ∧ k = 1
    · have hne2 : idx ≠ 2 * D1D + j := by
        obtain ⟨h2, h1⟩ := hsp
        have he' := he
        rw [h1, one_mul] at he'
        omega
      rw [if_pos hsp, Function.update_noteq hne2, if_pos hk, he, Function.update_same]
    · rw [if_neg hsp, if_pos hk, he, Function.update_same]
  · have hdiv : idx / D1D = 2 := by
      rw [he, add_comm, Nat.add_mul_div_right _ _ hD, Nat.div_eq_of_lt hj, Nat.zero_add]
    have hmod : idx % D1D = j := by
      rw [he, add_comm, Nat.add_mul_mod_self_right, Nat.mod_eq_of_lt hj]
    rw [hdiv, hmod, if_pos ⟨hD2, hk1⟩, he, Function.update_same]

/-- Running any list of lanes over the shared array: a cell some lane
writes holds the basis value for its direction and basis index, every
other cell keeps its previous contents. -/
lemma basisFold_char (D1D : ℕ) (rc z c : ℕ → ℚ) :
    ∀ (L : List (ℕ × ℕ)), (∀ p ∈ L, p.1 < D1D) → ∀ (w : ℕ → ℚ) (idx : ℕ),
      L.foldl (fun w' jk => basisStep D1D rc z c w' jk.1 jk.2) w idx =
        if ∃ p ∈ L, writesAt D1D p.1 p.2 idx
        then lagrange_eval (rc (idx / D1D)) (idx % D1D) D1D z c
        else w idx := by
  intro L
  induction L with
  | nil =>
    intro _ w idx
    rw [List.foldl_nil, if_neg]
    rintro ⟨p, hp, -⟩
    exact absurd hp (List.not_mem_nil p)
  | cons hd tl ih =>
    intro hall w idx
    rw [List.foldl_cons, ih (fun p hp => hall p (List.mem_cons_of_mem _ hp))]
    by_cases htl : ∃ p ∈ tl, writesAt D1D p.1 p.2 idx
    · have hcons : ∃ p ∈ hd :: tl, writesAt D1D p.1 p.2 idx := by
        obtain ⟨p, hp, hw⟩ := htl
        exact ⟨p, List.mem_cons_of_mem _ hp, hw⟩
      rw [if_pos htl, if_pos hcons]
    · by_cases hhd : writesAt D1D hd.1 hd.2 idx
      · have hcons : ∃ p ∈ hd :: tl, writesAt D1D p.1 p.2 idx :=
          ⟨hd, List.mem_cons_self _ _, hhd⟩
        rw [if_neg htl, if_pos hcons]
        exact basisStep_written D1D rc z c w hd.1 hd.2 idx
          (hall hd (List.mem_cons_self _ _)) hhd
      · have hcons : ¬ ∃ p ∈ hd :: tl, writesAt D1D p.1 p.2 idx := by
          rintro ⟨p, hp, hw⟩
          rcases List.mem_cons.mp hp with rfl | hptl
          · exact hhd hw
          · exact htl ⟨p, hptl, hw⟩
        rw [if_neg htl, if_neg hcons]
        exact basisStep_not_written D1D rc z c w hd.1 hd.2 idx hhd

/-- For any supported degree (`2 ≤ D1D`), after the basis phase the cell
`wtr[d*D1D + m]` (direction `d < 3`, basis index `m < D1D`) holds the
`m`-th basis value at coordinate `rc d`, for every initial contents `w0`
of the shared array.  For `D1D ≥ 3` direction `d` is written by the lanes
with `k = d`; for `D1D = 2` direction `2` is written by the special-cased
lanes with `k = 1`. -/
lemma basisPhase_apply (D1D : ℕ) (rc z c w0 : ℕ → ℚ) (d m : ℕ)
    (h2 : 2 ≤ D1D) (hd : d < 3) (hm : m < D1D) :
    basisPhase D1D rc z c w0 (d * D1D + m) = lagrange_eval (rc d) m D1D z c := by
  have hD : 0 < D1D := by omega
  have hdiv : (d * D1D + m) / D1D = d := by
    rw [add_comm, Nat.add_mul_div_right _ _ hD, Nat.div_eq_of_lt hm, Nat.zero_add]
  have hmod : (d * D1D + m) % D1D = m := by
    rw [add_comm, Nat.add_mul_mod_self_right, Nat.mod_eq_of_lt hm]
  have hex : ∃ p ∈ laneWrites D1D, writesAt D1D p.1 p.2 (d * D1D + m) := by
    by_cases hdD : d < D1D
    · exact ⟨(m, d), laneWrites_mem_pair hm hdD, Or.inl ⟨by omega, rfl⟩⟩
    · have hD2 : D1D = 2 := by omega
      have hd2 : d = 2 := by omega
      refine ⟨(m, 1), laneWrites_mem_pair hm (by omega), Or.inr ⟨hD2, rfl, ?_⟩⟩
      rw [hd2]
  have hch := basisFold_char D1D rc z c (laneWrites D1D)
    (fun p hp => laneWrites_mem_fst hp) w0 (d * D1D + m)
  unfold basisPhase
  rw [hch, if_pos hex, hdiv, hmod]

/-! ## The contraction loops compute the spec-side triple sum -/

/-- Splitting a sum over `range (m*n)` into `n` blocks of length `m`. -/
lemma sum_range_mul_split (m : ℕ) (f : ℕ → ℚ) (n : ℕ) :
    ∑ jj ∈ Finset.range (m * n), f jj
      = ∑ k ∈ Finset.range n, ∑ j ∈ Finset.range m, f (j + k * m) := by
  induction n with
  | zero => simp
  | succ n ih =>
    rw [Nat.mul_succ, Finset.sum_range_add, ih, Finset.sum_range_succ]
    congr 1
    exact Finset.sum_congr rfl fun j _ => by rw [add_comm (m * n) j, mul_comm m n]

/-- The reduction over the flat index `jj = j + k*m` as a double sum over
the lane indices `j = jj % m`, `k = jj / m`. -/
lemma sum_range_sq_moddiv (m : ℕ) (hm : 0 < m) (f : ℕ → ℕ → ℚ) :
    ∑ jj ∈ Finset.range (m * m), f (jj % m) (jj / m)
      = ∑ k ∈ Finset.range m, ∑ j ∈ Finset.range m, f j k := by
  rw [sum_range_mul_split m (fun jj => f (jj % m) (jj / m)) m]
  refine Finset.sum_congr rfl fun k hk => Finset.sum_congr rfl fun j hj => ?_
  have hjm := Finset.mem_range.mp hj
  show f ((j + k * m) % m) ((j + k * m) / m) = f j k
  rw [Nat.add_mul_mod_self_right, Nat.mod_eq_of_lt hjm,
    Nat.add_mul_div_right _ _ hm, Nat.div_eq_of_lt hjm, Nat.zero_add]

/-- The inner `l`-loop of the contraction phase as a `Finset` sum. -/
lemma innerSum_eq (D1D : ℕ) (gf : ℕ → ℚ) (off : ℕ) (w : ℕ → ℚ) (j k : ℕ) :
    innerSum D1D gf off w j k
      = (∑ l ∈ Finset.range D1D, gf (off + j + k * D1D + l * D1D * D1D) * w (2 * D1D + l))
        * (w (D1D + k) * w j) := by
  unfold innerSum
  rw [foldl_add_range (fun l => gf (off + j + k * D1D + l * D1D * D1D) * w (2 * D1D + l))
    D1D 0, zero_add]

/-- For any supported degree, the value the kernel computes for one point
and one field component is exactly the spec-side triple sum of nodal
values times the three directional basis weights, whatever the initial
contents `w0` of the shared scratch array. -/
lemma pointOutput_eq_spec (D1D ncomp : ℕ) (gf : ℕ → ℚ) (eli : ℕ) (rc z c w0 : ℕ → ℚ)
    (fld : ℕ) (h2 : 2 ≤ D1D) :
    pointOutput D1D ncomp gf eli rc z c w0 fld
      = specInterpValue D1D ncomp gf eli rc z c fld := by
  have hD : 0 < D1D := by omega
  have hw0 : ∀ m, m < D1D →
      basisPhase D1D rc z c w0 m = specWeight D1D z c (rc 0) m := by
    intro m hm
    have h := basisPhase_apply D1D rc z c w0 0 m h2 (by omega) hm
    rw [Nat.zero_mul, Nat.zero_add, lagrange_eval_eq_weight] at h
    exact h
  have hw1 : ∀ m, m < D1D →
      basisPhase D1D rc z c w0 (D1D + m) = specWeight D1D z c (rc 1) m := by
    intro m hm
    have h := basisPhase_apply D1D rc z c w0 1 m h2 (by omega) hm
    rw [Nat.one_mul, lagrange_eval_eq_weight] at h
    exact h
  have hw2 : ∀ m, m < D1D →
      basisPhase D1D rc z c w0 (2 * D1D + m) = specWeight D1D z c (rc 2) m := by
    intro m hm
    have h := basisPhase_apply D1D rc z c w0 2 m h2 (by omega) hm
    rw [lagrange_eval_eq_weight] at h
    exact h
  unfold pointOutput
  rw [foldl_add_range (fun jj => innerSum D1D gf
      (eli * (D1D * D1D * D1D) * ncomp + fld * (D1D * D1D * D1D))
      (basisPhase D1D rc z c w0) (jj % D1D) (jj / D1D)) (D1D * D1D) 0, zero_add]
  rw [sum_range_sq_moddiv D1D hD (innerSum D1D gf
      (eli * (D1D * D1D * D1D) * ncomp + fld * (D1D * D1D * D1D))
      (basisPhase D1D rc z c w0))]
  unfold specInterpValue
  rw [Finset.sum_comm]
  refine Finset.sum_congr rfl fun j hj => Finset.sum_congr rfl fun k hk => ?_
  have hjD := Finset.mem_range.mp hj
  have hkD := Finset.mem_range.mp hk
  rw [innerSum_eq, hw0 j hjD, hw1 k hkD, Finset.sum_mul]
  refine Finset.sum_congr rfl fun l hl => ?_
  have hlD := Finset.mem_range.mp hl
  rw [hw2 l hlD]
  have hidx : eli * (D1D * D1D * D1D) * ncomp + fld * (D1D * D1D * D1D) + j + k * D1D
      + l * D1D * D1D
      = eli * (D1D * D1D * D1D) * ncomp + fld * (D1D * D1D * D1D) + j + k * D1D
        + l * (D1D * D1D) := by ring
  rw [hidx]
  ring

/-! ## Per-component decomposition -/

/-- The local tensor index `j + k*m + l*m²` stays below `m³`. -/
lemma tensor_lt (m j k l : ℕ) (hj : j < m) (hk : k < m) (hl : l < m) :
    j + k * m + l * m * m < m * m * m := by
  calc j + k * m + l * m * m
      < m + k * m + l * m * m := Nat.add_lt_add_right (Nat.add_lt_add_right hj _) _
    _ = (1 + k) * m + l * m * m := by ring
    _ ≤ m * m + l * m * m :=
        Nat.add_le_add_right (Nat.mul_le_mul_right m (by omega)) _
    _ = (1 + l) * (m * m) := by ring
    _ ≤ m * (m * m) := Nat.mul_le_mul_right (m * m) (by omega)
    _ = m * m * m := by ring

/-- The value computed for component `comp` of a 3-component invocation is
the value a 1-component invocation computes on the sub-buffer of component
`comp`. -/
lemma pointOutput_subComponent (D1D : ℕ) (gf : ℕ → ℚ) (eli : ℕ) (rc z c w0 : ℕ → ℚ)
    (comp : ℕ) (hD : 0 < D1D) :
    pointOutput D1D 3 gf eli rc z c w0 comp
      = pointOutput D1D 1 (subComponentBuffer D1D comp gf) eli rc z c w0 0 := by
  have hN : 0 < D1D * D1D * D1D := by positivity
  unfold pointOutput
  rw [foldl_add_range (fun jj => innerSum D1D gf
      (eli * (D1D * D1D * D1D) * 3 + comp * (D1D * D1D * D1D))
      (basisPhase D1D rc z c w0) (jj % D1D) (jj / D1D)) (D1D * D1D) 0]
  rw [foldl_add_range (fun jj => innerSum D1D (subComponentBuffer D1D comp gf)
      (eli * (D1D * D1D * D1D) * 1 + 0 * (D1D * D1D * D1D))
      (basisPhase D1D rc z c w0) (jj % D1D) (jj / D1D)) (D1D * D1D) 0]
  rw [zero_add, zero_add]
  refine Finset.sum_congr rfl fun jj hjj => ?_
  have hjjr := Finset.mem_range.mp hjj
  have hj : jj % D1D < D1D := Nat.mod_lt _ hD
  have hk : jj / D1D < D1D := Nat.div_lt_of_lt_mul hjjr
  rw [innerSum_eq, innerSum_eq]
  congr 1
  refine Finset.sum_congr rfl fun l hl => ?_
  have hlD := Finset.mem_range.mp hl
  congr 1
  unfold subComponentBuffer
  have hlt : jj % D1D + (jj / D1D) * D1D + l * D1D * D1D < D1D * D1D * D1D :=
    tensor_lt D1D _ _ _ hj hk hlD
  have hXeq : eli * (D1D * D1D * D1D) * 1 + 0 * (D1D * D1D * D1D) + jj % D1D
      + (jj / D1D) * D1D + l * D1D * D1D
      = (jj % D1D + (jj / D1D) * D1D + l * D1D * D1D) + eli * (D1D * D1D * D1D) := by
    ring
  rw [hXeq, Nat.add_mul_div_right _ _ hN, Nat.div_eq_of_lt hlt, Nat.zero_add,
    Nat.add_mul_mod_self_right, Nat.mod_eq_of_lt hlt]
  congr 1
  ring

/-! ## Claim theorems -/

/-- C1: for every invocation that passes the precondition checks, every
point `i < npt` and every component `fld < ncomp`, the kernel writes into
`int_out[i + fld*npt]` the value `∑ j k l < D1D` of
`gf_in[el[i]*D1D³*ncomp + fld*D1D³ + j + k*D1D + l*D1D²] * w0(j)*w1(k)*w2(l)`
with `wd(m) = lagcoeff[m] * 2^(D1D-1) * ∏ q ≠ m, (r[3i+d] - gll1D[q])`
(`specInterpValue`/`specWeight`).  The embedding computes it, as the source
does, as an inner sum over `l` for each lane `(j,k)`, scaled by
`w1(k)*w0(j)`, summed over the flat index `j + k*D1D` in increasing order
(`innerSum`, `pointOutput`); over exact arithmetic this equals the triple
sum.  The degree hypothesis `2 ≤ D1D` is the spec-side input contract
(degree between 2 and 10); for `D1D = 1` the kernel would read
uninitialized shared memory. -/
theorem C1_kernel_writes_spec_value (T_D1D : ℕ) (gf_in : ℕ → ℚ) (el : ℕ → ℕ)
    (r int_out : ℕ → ℚ) (npt ncomp nel gf_offset : ℕ) (gll1D lagcoeff : ℕ → ℚ)
    (pN : ℕ) (wtr0 : ℕ → ℚ) (i fld : ℕ) (out : ℕ → ℚ)
    (hD : 2 ≤ effectiveD1D T_D1D pN)
    (hout : InterpolateLocal3DKernel T_D1D gf_in el r int_out npt ncomp nel
      gf_offset gll1D lagcoeff pN wtr0 = some out)
    (hi : i < npt) (hfld : fld < ncomp) :
    out (i + fld * npt)
      = specInterpValue (effectiveD1D T_D1D pN) ncomp gf_in (el i)
          (fun d => r (3 * i + d)) gll1D lagcoeff fld := by
  have hnpt : 0 < npt := lt_of_le_of_lt (Nat.zero_le i) hi
  unfold InterpolateLocal3DKernel at hout
  split_ifs at hout with h1 h2
  · have hko : kernelWrites (effectiveD1D T_D1D pN) ncomp gf_in el r int_out npt
        gll1D lagcoeff wtr0 = out := by injection hout
    subst hko
    have hdiv : (i + fld * npt) / npt = fld := by
      rw [Nat.add_mul_div_right _ _ hnpt, Nat.div_eq_of_lt hi, Nat.zero_add]
    have hmod : (i + fld * npt) % npt = i := by
      rw [Nat.add_mul_mod_self_right, Nat.mod_eq_of_lt hi]
    have hW : outWritten npt ncomp (i + fld * npt) := ⟨hnpt, by rw [hdiv]; exact hfld⟩
    unfold kernelWrites
    rw [if_pos hW, hdiv, hmod]
    exact pointOutput_eq_spec _ _ _ _ _ _ _ _ _ hD

/-- Witness for C1: a concrete degree-2 invocation on all-zero buffers of
one point and one component. -/
theorem C1_kernel_writes_spec_value_witness :
    2 ≤ effectiveD1D 2 0 ∧ (0:ℕ) < 1 ∧
    (Option.getD (InterpolateLocal3DKernel 2 (fun _ => 0) (fun _ => 0) (fun _ => 0)
        (fun _ => 0) 1 1 1 0 (fun _ => 0) (fun _ => 0) 0 (fun _ => 0)) (fun _ => 0))
        (0 + 0 * 1)
      = specInterpValue (effectiveD1D 2 0) 1 (fun _ => 0) 0 (fun _ => 0)
          (fun _ => 0) (fun _ => 0) 0 :=
  ⟨by decide, by decide,
    C1_kernel_writes_spec_value 2 (fun _ => 0) (fun _ => 0) (fun _ => 0) (fun _ => 0)
      1 1 1 0 (fun _ => 0) (fun _ => 0) 0 (fun _ => 0) 0 0
      (Option.getD (InterpolateLocal3DKernel 2 (fun _ => 0) (fun _ => 0) (fun _ => 0)
        (fun _ => 0) 1 1 1 0 (fun _ => 0) (fun _ => 0) 0 (fun _ => 0)) (fun _ => 0))
      (by decide) rfl (by decide) (by decide)⟩

/-- C2 (claim as stated is FALSE on the code): on the generic path
(`T_D1D = 0`) the check of line 54 tests `MD1 <= 10` with `MD1` equal to
the constant `10`, so a call with `pN = 11 > 10` is NOT rejected — the
kernel proceeds (first conjunct), while a call with `pN = 0` IS rejected
(second conjunct), contradicting the claim that every call with
`pN > 10` aborts. -/
theorem C2_generic_path_checks :
    (InterpolateLocal3DKernel 0 (fun _ => 0) (fun _ => 0) (fun _ => 0) (fun _ => 0)
        1 1 1 0 (fun _ => 0) (fun _ => 0) 11 (fun _ => 0)).isSome = true ∧
    InterpolateLocal3DKernel 0 (fun _ => 0) (fun _ => 0) (fun _ => 0) (fun _ => 0)
        1 1 1 0 (fun _ => 0) (fun _ => 0) 0 (fun _ => 0) = none :=
  ⟨rfl, rfl⟩

/-- C3: for every degree `d ∈ {2,3,4,5}` and identical inputs, the
degree-specialized instantiation (`T_D1D = d`, `pN` defaulted to `0`) and
the generic instantiation (`T_D1D = 0`, `pN = d`) produce identical
output buffers. -/
theorem C3_specialized_eq_generic (d : ℕ) (gf_in : ℕ → ℚ) (el : ℕ → ℕ)
    (r int_out : ℕ → ℚ) (npt ncomp nel gf_offset : ℕ) (gll1D lagcoeff : ℕ → ℚ)
    (wtr0 : ℕ → ℚ) (hd : d = 2 ∨ d = 3 ∨ d = 4 ∨ d = 5) :
    InterpolateLocal3DKernel d gf_in el r int_out npt ncomp nel gf_offset
        gll1D lagcoeff 0 wtr0
      = InterpolateLocal3DKernel 0 gf_in el r int_out npt ncomp nel gf_offset
        gll1D lagcoeff d wtr0 := by
  rcases hd with rfl | rfl | rfl | rfl <;> rfl

/-- Witness for C3 at `d = 2` on all-zero buffers. -/
theorem C3_specialized_eq_generic_witness :
    ((2:ℕ) = 2 ∨ (2:ℕ) = 3 ∨ (2:ℕ) = 4 ∨ (2:ℕ) = 5) ∧
    InterpolateLocal3DKernel 2 (fun _ => 0) (fun _ => 0) (fun _ => 0) (fun _ => 0)
        1 1 1 0 (fun _ => 0) (fun _ => 0) 0 (fun _ => 0)
      = InterpolateLocal3DKernel 0 (fun _ => 0) (fun _ => 0) (fun _ => 0) (fun _ => 0)
        1 1 1 0 (fun _ => 0) (fun _ => 0) 2 (fun _ => 0) :=
  ⟨Or.inl rfl,
    C3_specialized_eq_generic 2 (fun _ => 0) (fun _ => 0) (fun _ => 0) (fun _ => 0)
      1 1 1 0 (fun _ => 0) (fun _ => 0) (fun _ => 0) (Or.inl rfl)⟩

/-- C4: for every coordinate `x` (off-node and out-of-domain included) and
basis index `i < p_Nq`, `lagrange_eval` stores into `p0[i]` the value
`lagrangeCoeff[i] * 2^(p_Nq-1) * ∏ j ≠ i, (x - z[j])`; the embedding is a
total function, so it is defined for every `x` with no failure mode. -/
theorem C4_lagrange_eval_value (x : ℚ) (i p_Nq : ℕ) (z c : ℕ → ℚ)
    (hi : i < p_Nq) :
    lagrange_eval x i p_Nq z c
      = c i * 2 ^ (p_Nq - 1) * ∏ q ∈ (Finset.range p_Nq).erase i, (x - z q) :=
  lagrange_eval_eq_weight x i p_Nq z c

/-- Witness for C4 at `x = 5`, `i = 0`, degree 2. -/
theorem C4_lagrange_eval_value_witness :
    (0:ℕ) < 2 ∧
    lagrange_eval 5 0 2 (fun _ => 0) (fun _ => 1)
      = 1 * 2 ^ (2 - 1) * ∏ q ∈ (Finset.range 2).erase 0, ((5:ℚ) - 0) :=
  ⟨by decide, C4_lagrange_eval_value 5 0 2 (fun _ => 0) (fun _ => 1) (by decide)⟩

/-- C5: Kronecker property.  For every supported degree `2 ≤ D1D ≤ 10`,
node indices `i, m < D1D`, pairwise distinct node positions, and a
coefficient table consistent with the node table
(`lagcoeff[i'] * 2^(D1D-1) * ∏ q ≠ i', (z[i'] - z[q]) = 1`), evaluating
the `i`-th basis function at node `m` yields exactly `1` when `m = i` and
exactly `0` otherwise. -/
theorem C5_kronecker (D1D i m : ℕ) (z c : ℕ → ℚ)
    (h2 : 2 ≤ D1D) (h10 : D1D ≤ 10) (hi : i < D1D) (hm : m < D1D)
    (hdist : ∀ a, a < D1D → ∀ b, b < D1D → a ≠ b → z a ≠ z b)
    (hcons : ∀ i', i' < D1D →
      c i' * 2 ^ (D1D - 1) * ∏ q ∈ (Finset.range D1D).erase i', (z i' - z q) = 1) :
    lagrange_eval (z m) i D1D z c = if m = i then 1 else 0 := by
  rw [lagrange_eval_eq_weight]
  unfold specWeight
  by_cases hmi : m = i
  · rw [if_pos hmi, hmi]
    exact hcons i hi
  · rw [if_neg hmi]
    have hmem : m ∈ (Finset.range D1D).erase i :=
      Finset.mem_erase.mpr ⟨hmi, Finset.mem_range.mpr hm⟩
    rw [Finset.prod_eq_zero hmem (sub_self (z m)), mul_zero]

/-- Witness for C5: degree 2, nodes `{-1, 1}`, consistent coefficients
`{-1/4, 1/4}`, basis index `0` evaluated at node `1` gives `0`. -/
theorem C5_kronecker_witness :
    2 ≤ 2 ∧ (2:ℕ) ≤ 10 ∧ (0:ℕ) < 2 ∧ (1:ℕ) < 2 ∧
    lagrange_eval 1 0 2 (fun q => if q = 0 then (-1:ℚ) else 1)
        (fun q => if q = 0 then (-(1/4):ℚ) else 1/4)
      = 0 :=
  ⟨by decide, by decide, by decide, by decide,
    C5_kronecker 2 0 1 (fun q => if q = 0 then (-1:ℚ) else 1)
      (fun q => if q = 0 then (-(1/4):ℚ) else 1/4)
      (by decide) (by decide) (by decide) (by decide) (by decide)
      (by
        have e0 : (Finset.range 2).erase 0 = {1} := rfl
        have e1 : (Finset.range 2).erase 1 = {0} := rfl
        intro i' hi'
        interval_cases i'
        · rw [e0, Finset.prod_singleton]; norm_num
        · rw [e1, Finset.prod_singleton]; norm_num)⟩

/-- C6: worked example.  Degree 2 (`T_D1D = 2`, as dispatched for
`dof1Dsol = 2`), one element, one component, nodes `{-1, 1}`, coefficients
consistent with those nodes, nodal values `1..8` by increasing tensor
index (`gf n = n + 1`), one query point in element `0` at reference
coordinates `(0,0,0)`: the kernel writes exactly `9/2 = 4.5` into the
output slot of that point, for every initial contents `w0` of the shared
scratch array. -/
theorem C6_worked_example (w0 : ℕ → ℚ) :
    (InterpolateLocal3DKernel 2 (fun n => (n : ℚ) + 1) (fun _ => 0) (fun _ => 0)
        (fun _ => 0) 1 1 1 8 (fun q => if q = 0 then -1 else 1)
        (fun q => if q = 0 then -(1/4) else 1/4) 0 w0).map (fun f => f 0)
      = some (9 / 2) := by
  show some ((kernelWrites 2 1 (fun n => (n : ℚ) + 1) (fun _ => 0) (fun _ => 0)
      (fun _ => 0) 1 (fun q => if q = 0 then -1 else 1)
      (fun q => if q = 0 then -(1/4) else 1/4) w0) 0) = some (9 / 2)
  refine congrArg some ?_
  show pointOutput 2 1 (fun n => (n : ℚ) + 1) 0 (fun _ => 0)
      (fun q => if q = 0 then -1 else 1) (fun q => if q = 0 then -(1/4) else 1/4) w0 0
      = 9 / 2
  rw [pointOutput_eq_spec]
  · have e0 : (Finset.range 2).erase 0 = {1} := rfl
    have e1 : (Finset.range 2).erase 1 = {0} := rfl
    simp only [specInterpValue, specWeight, Finset.sum_range_succ, Finset.sum_range_zero,
      e0, e1, Finset.prod_singleton]
    norm_num
  · norm_num

/-- C7: for every invocation with `ncomp = 3` and every component
`comp < 3`, the value written for point `i` and component `comp` equals
the value a single-component (`ncomp = 1`) invocation writes for point `i`
on the sub-buffer holding the nodal values of component `comp`
(`subComponentBuffer`), with all other arguments unchanged; when the
precondition checks fail, both invocations abort identically. -/
theorem C7_multicomponent (T_D1D : ℕ) (gf_in : ℕ → ℚ) (el : ℕ → ℕ)
    (r int_out : ℕ → ℚ) (npt nel gf_offset : ℕ) (gll1D lagcoeff : ℕ → ℚ)
    (pN : ℕ) (wtr0 : ℕ → ℚ) (i comp : ℕ) (hi : i < npt) (hc : comp < 3) :
    (InterpolateLocal3DKernel T_D1D gf_in el r int_out npt 3 nel gf_offset
        gll1D lagcoeff pN wtr0).map (fun f => f (i + comp * npt))
      = (InterpolateLocal3DKernel T_D1D
          (subComponentBuffer (effectiveD1D T_D1D pN) comp gf_in) el r int_out npt 1
          nel gf_offset gll1D lagcoeff pN wtr0).map (fun f => f i) := by
  have hnpt : 0 < npt := lt_of_le_of_lt (Nat.zero_le i) hi
  unfold InterpolateLocal3DKernel
  split_ifs with h1 h2
  · rw [Option.map_some', Option.map_some']
    refine congrArg some ?_
    have hD : 0 < effectiveD1D T_D1D pN := Nat.pos_of_ne_zero h2
    have hdiv : (i + comp * npt) / npt = comp := by
      rw [Nat.add_mul_div_right _ _ hnpt, Nat.div_eq_of_lt hi, Nat.zero_add]
    have hmod : (i + comp * npt) % npt = i := by
      rw [Nat.add_mul_mod_self_right, Nat.mod_eq_of_lt hi]
    have himod : i % npt = i := Nat.mod_eq_of_lt hi
    have hidiv : i / npt = 0 := Nat.div_eq_of_lt hi
    have hW3 : outWritten npt 3 (i + comp * npt) := ⟨hnpt, by rw [hdiv]; exact hc⟩
    have hW1 : outWritten npt 1 i := ⟨hnpt, by rw [hidiv]; exact Nat.one_pos⟩
    unfold kernelWrites
    rw [if_pos hW3, if_pos hW1, hdiv, hmod, himod, hidiv]
    exact pointOutput_subComponent (effectiveD1D T_D1D pN) gf_in (el i)
      (fun d => r (3 * i + d)) gll1D lagcoeff wtr0 comp hD
  · rfl
  · rfl

/-- Witness for C7: one point, component 0, degree 2, all-zero buffers. -/
theorem C7_multicomponent_witness :
    (0:ℕ) < 1 ∧ (0:ℕ) < 3 ∧
    (InterpolateLocal3DKernel 2 (fun _ => 0) (fun _ => 0) (fun _ => 0) (fun _ => 0)
        1 3 1 0 (fun _ => 0) (fun _ => 0) 0 (fun _ => 0)).map (fun f => f (0 + 0 * 1))
      = (InterpolateLocal3DKernel 2
          (subComponentBuffer (effectiveD1D 2 0) 0 (fun _ => 0)) (fun _ => 0)
          (fun _ => 0) (fun _ => 0) 1 1 1 0 (fun _ => 0) (fun _ => 0) 0
          (fun _ => 0)).map (fun f => f 0) :=
  ⟨by decide, by decide,
    C7_multicomponent 2 (fun _ => 0) (fun _ => 0) (fun _ => 0) (fun _ => 0) 1 1 0
      (fun _ => 0) (fun _ => 0) 0 (fun _ => 0) 0 0 (by decide) (by decide)⟩

/-- C8: `InterpolateLocal3` with `npt = 0` returns immediately without
failing and leaves every element of the output buffer unchanged. -/
theorem C8_npt_zero_noop (field_in_size : ℕ) (field_in : ℕ → ℚ) (gsl_elem : ℕ → ℕ)
    (gsl_ref field_out : ℕ → ℚ) (ncomp nel dof1Dsol : ℕ)
    (gll1d_sol lagcoeff_sol wtr0 : ℕ → ℚ) :
    InterpolateLocal3 field_in_size field_in gsl_elem gsl_ref field_out 0 ncomp nel
        dof1Dsol gll1d_sol lagcoeff_sol wtr0 = some field_out :=
  rfl

/-- An all-zero buffer state, used by concrete witness instantiations. -/
def zeroState : KernelState :=
  ⟨fun _ => 0, fun _ => 0, fun _ => 0, fun _ => 0, fun _ => 0, fun _ => 0⟩

/-- C9: frame property.  Every invocation of the kernel that runs leaves
the nodal field buffer, the element-index buffer, the reference-coordinate
buffer, the node-position table and the coefficient table unchanged (even
though the source passes `el`, `r`, `gll1D`, `lagcoeff` through non-const
pointers), and writes only the output cells `i + fld*npt`
(`i < npt`, `fld < ncomp`): every other cell of `int_out` is unchanged. -/
theorem C9_kernel_frame (T_D1D : ℕ) (s : KernelState) (npt ncomp nel gf_offset pN : ℕ)
    (wtr0 : ℕ → ℚ) (idx : ℕ) (s' : KernelState)
    (hs' : InterpolateLocal3DKernelFull T_D1D s npt ncomp nel gf_offset pN wtr0
      = some s')
    (hidx : ¬ outWritten npt ncomp idx) :
    s'.gf_in = s.gf_in ∧ s'.el = s.el ∧ s'.r = s.r ∧ s'.gll1D = s.gll1D ∧
    s'.lagcoeff = s.lagcoeff ∧ s'.int_out idx = s.int_out idx := by
  unfold InterpolateLocal3DKernelFull at hs'
  cases hk : InterpolateLocal3DKernel T_D1D s.gf_in s.el s.r s.int_out npt ncomp nel
      gf_offset s.gll1D s.lagcoeff pN wtr0 with
  | none => rw [hk] at hs'; simp at hs'
  | some out =>
    rw [hk, Option.map_some'] at hs'
    obtain rfl : (⟨s.gf_in, s.el, s.r, out, s.gll1D, s.lagcoeff⟩ : KernelState) = s' := by
      injection hs'
    refine ⟨rfl, rfl, rfl, rfl, rfl, ?_⟩
    unfold InterpolateLocal3DKernel at hk
    split_ifs at hk with h1 h2
    · have hko : kernelWrites (effectiveD1D T_D1D pN) ncomp s.gf_in s.el s.r s.int_out
          npt s.gll1D s.lagcoeff wtr0 = out := by injection hk
      show out idx = s.int_out idx
      rw [← hko]
      unfold kernelWrites
      rw [if_neg hidx]

/-- Witness for C9: a concrete degree-2 run on all-zero buffers; cell 5 of
the output is outside the written range `npt * ncomp = 1`. -/
theorem C9_kernel_frame_witness :
    ¬ outWritten 1 1 5 ∧
    ((Option.getD (InterpolateLocal3DKernelFull 2 zeroState 1 1 1 0 0 (fun _ => 0))
        zeroState).gf_in = zeroState.gf_in ∧
      (Option.getD (InterpolateLocal3DKernelFull 2 zeroState 1 1 1 0 0 (fun _ => 0))
        zeroState).el = zeroState.el ∧
      (Option.getD (InterpolateLocal3DKernelFull 2 zeroState 1 1 1 0 0 (fun _ => 0))
        zeroState).r = zeroState.r ∧
      (Option.getD (InterpolateLocal3DKernelFull 2 zeroState 1 1 1 0 0 (fun _ => 0))
        zeroState).gll1D = zeroState.gll1D ∧
      (Option.getD (InterpolateLocal3DKernelFull 2 zeroState 1 1 1 0 0 (fun _ => 0))
        zeroState).lagcoeff = zeroState.lagcoeff ∧
      (Option.getD (InterpolateLocal3DKernelFull 2 zeroState 1 1 1 0 0 (fun _ => 0))
        zeroState).int_out 5 = zeroState.int_out 5) :=
  ⟨by decide,
    C9_kernel_frame 2 zeroState 1 1 1 0 0 (fun _ => 0) 5
      (Option.getD (InterpolateLocal3DKernelFull 2 zeroState 1 1 1 0 0 (fun _ => 0))
        zeroState)
      rfl (by decide)⟩

/-- C10: the kernel never reads `gf_offset` (its only use in the source is
commented out), so two runs differing only in `gf_offset` produce
identical results. -/
theorem C10_gf_offset_independent (T_D1D : ℕ) (gf_in : ℕ → ℚ) (el : ℕ → ℕ)
    (r int_out : ℕ → ℚ) (npt ncomp nel off1 off2 : ℕ) (gll1D lagcoeff : ℕ → ℚ)
    (pN : ℕ) (wtr0 : ℕ → ℚ) :
    InterpolateLocal3DKernel T_D1D gf_in el r int_out npt ncomp nel off1
        gll1D lagcoeff pN wtr0
      = InterpolateLocal3DKernel T_D1D gf_in el r int_out npt ncomp nel off2
        gll1D lagcoeff pN wtr0 :=
  rfl
